import Mathlib

/-!
Verification development for the changesets Builder and Serializer.

The definitions below are a shallow embedding of the TypeScript sources:

* `src/packages/cli/src/commands/add/createChangeset.ts` (the Builder):
  interactive prompts are modelled by passing every user answer explicitly
  in an `Answers` record, so each prompting function becomes a pure
  function of the answers.  Loops that re-prompt until a non-empty answer
  arrives are modelled over a finite answer stream; an exhausted stream
  (the user never supplies a valid answer, i.e. the source loops forever)
  is modelled as the `hang` outcome.  `throw new ExitError(1)` is modelled
  as the `exit 1` outcome.
* `src/unnamed/part_000` (the earlier Serializer, namespace `WriteLegacy`)
  and `src/packages/write/src/index.ts` (the Serializer, namespace
  `Write`): the pure document rendering is embedded directly; the external
  collaborators (`humanId`, `prettier.format`, `fs.writeFile`) are passed
  as parameters, with the file system as an association list of paths to
  contents and a fallible formatter returning `Except`.
-/

namespace Changesets

/-- Semantic version as carried by a `package.json`: numeric
`major.minor.patch` plus a (possibly empty) prerelease identifier list. -/
structure Semver where
  major : Nat
  minor : Nat
  patch : Nat
  prerelease : List String
deriving DecidableEq, Repr

/-- Models the `PackageJSON` shape used by the Builder (only `name` and
`version` are read). -/
structure PackageJSON where
  name : String
  version : Semver
deriving DecidableEq, Repr

/-- Models `Package` from `@manypkg/get-packages` (only `packageJson` is
read by this code). -/
structure Package where
  packageJson : PackageJSON
deriving DecidableEq, Repr

/-- Models `Release` from `@changesets/types`: the bump type is kept as a
string, exactly as the JavaScript value ("major", "minor", "patch"). -/
structure Release where
  name : String
  type : String
deriving DecidableEq, Repr

/-- Models `CategoryOfChange` from `@changesets/types`.  The records the
Builder constructs carry only `description` and `category`; the
Serializer additionally reads an (optional) `type` field, which is
`undefined` on the Builder's records, modelled here as an `Option` that
defaults to `none`. -/
structure CategoryOfChange where
  description : String
  category : String
  type : Option String := none
deriving DecidableEq, Repr

/-- Models `Changeset` from `@changesets/types` as consumed by the
Serializer. -/
structure Changeset where
  summary : String
  releases : List Release
  categoryOfChangeList : List CategoryOfChange
deriving DecidableEq, Repr

/-- Models the Builder's `ChangesetWithConfirmed = Changeset & { confirmed:
boolean }`, with fields in the order of the object literals in the
source. -/
structure ChangesetWithConfirmed where
  confirmed : Bool
  summary : String
  categoryOfChangeList : List CategoryOfChange
  releases : List Release
deriving DecidableEq, Repr

/-- Models `getKindTitle` (createChangeset.ts): `kind.split(" ")[0]`. -/
def getKindTitle (kind : String) : String :=
  (kind.splitOn " ").headD ""

/-- Models `semver.lt(version, "1.0.0")`: a semantic version is below
`1.0.0` exactly when its major component is `0`, or it is a prerelease of
`1.0.0` itself. -/
def semverLtOneZeroZero (v : Semver) : Bool :=
  v.major == 0 || (v.major == 1 && v.minor == 0 && v.patch == 0 && !v.prerelease.isEmpty)

/-- Models `confirmMajorRelease` (createChangeset.ts, lines 34-56): for a
package below `1.0.0` the user's confirmation `answer` is returned,
otherwise the release is accepted without asking. -/
def confirmMajorRelease (pkgJSON : PackageJSON) (answer : Bool) : Bool :=
  if semverLtOneZeroZero pkgJSON.version then answer else true

/-- User answers consumed by one `setSummary` call: the first free-text
answer, the external editor outcome (`none` models the editor raising),
and the stream of answers to the retry loop. -/
structure SummaryAnswers where
  first : String
  editor : Option String
  retries : List String
deriving DecidableEq, Repr

/-- The text accepted from the external editor attempt of `setSummary`:
`none` when the editor raised or returned empty text (both continue into
the retry loop). -/
def editorAnswer (ans : SummaryAnswers) : Option String :=
  match ans.editor with
  | some editorText => if 0 < editorText.length then some editorText else none
  | none => none

/-- Models `setSummary` (createChangeset.ts, lines 58-91).  A non-empty
first answer is stored with `confirmed := false`; an empty first answer
falls back to the external editor (non-empty editor text is stored with
`confirmed := true`); if the editor raises or yields nothing, the retry
loop stores the first non-empty retry answer with `confirmed := false`.
`none` models the retry loop never terminating. -/
def setSummary (changeSet : ChangesetWithConfirmed) (ans : SummaryAnswers) :
    Option ChangesetWithConfirmed :=
  if ans.first.length = 0 then
    match editorAnswer ans with
    | some editorText => some { changeSet with summary := editorText, confirmed := true }
    | none =>
      match ans.retries.find? (fun s => !s.isEmpty) with
      | some s => some { changeSet with summary := s, confirmed := false }
      | none => none
  else
    some { changeSet with summary := ans.first, confirmed := false }

/-- Models `chooseAtLeastOne` (createChangeset.ts, lines 93-106): the
checkbox prompt is repeated until a non-empty selection arrives, so the
result is the first non-empty answer of the stream; `none` models the
loop never terminating. -/
def chooseAtLeastOne (selections : List (List String)) : Option (List String) :=
  selections.find? (fun sel => !sel.isEmpty)

/-- Default `PackageJSON`, standing in for the JavaScript `undefined` that
a failed `Map.get(...)!` lookup or `allPackages[0]` on an empty array
would produce (those paths are never exercised under the theorems'
hypotheses). -/
def defaultPackageJSON : PackageJSON :=
  { name := "", version := { major := 0, minor := 0, patch := 0, prerelease := [] } }

/-- Default `Package` (see `defaultPackageJSON`). -/
def defaultPackage : Package :=
  { packageJson := defaultPackageJSON }

/-- Workspace package names, in workspace order. -/
def workspaceNames (allPackages : List Package) : List String :=
  allPackages.map (fun p => p.packageJson.name)

/-- Models `unchangedPackagesNames` (createChangeset.ts, lines 133-135):
workspace package names not listed among the changed packages.  These are
the choices offered under the "unchanged packages" group of the initial
checkbox. -/
def unchangedPackagesNames (changedPackages : List String) (allPackages : List Package) :
    List String :=
  (workspaceNames allPackages).filter (fun name => name ∉ changedPackages)

/-- Models `getPackagesToRelease` (createChangeset.ts, lines 108-159): in
a multi-package workspace, the first non-empty checkbox answer with the
group labels filtered out; in a single-package workspace, the sole
package's name without prompting.  The `changedPackages` argument only
shapes the choices offered by the prompt, not the returned value. -/
def getPackagesToRelease (changedPackages : List String) (allPackages : List Package)
    (selections : List (List String)) : Option (List String) :=
  if 1 < allPackages.length then
    (chooseAtLeastOne selections).map
      (List.filter (fun p => p ≠ "changed packages" ∧ p ≠ "unchanged packages"))
  else some [(allPackages.headD defaultPackage).packageJson.name]

/-- Models `new Map(allPackages.map(({packageJson}) => [packageJson.name,
packageJson]))` followed by `.get(name)!`: for duplicate names a
JavaScript `Map` keeps the last entry, hence the lookup over the reversed
list. -/
def pkgJsonsLookup (allPackages : List Package) (pkgName : String) : PackageJSON :=
  (((allPackages.map (fun p => (p.packageJson.name, p.packageJson))).reverse).lookup
    pkgName).getD defaultPackageJSON

/-- Iteration of `new Set(list)` construction: an element already seen is
skipped, a new one is kept and added to the seen set. -/
def dedupFirstAux (seen : List String) : List String → List String
  | [] => []
  | a :: as => if a ∈ seen then dedupFirstAux seen as else a :: dedupFirstAux (a :: seen) as

/-- Models `new Set(list)` iteration order: first occurrences, in order. -/
def dedupFirst (l : List String) : List String :=
  dedupFirstAux [] l

/-- Models the major round of createChangeset.ts (lines 233-245): for each
package in the (already label-filtered) major selection, in order, the
first-major-release confirmation runs; on acceptance the package is
removed from the working set and a major `Release` is pushed. -/
def majorRound (pkgJsonFor : String → PackageJSON) (confirmAnswers : String → Bool) :
    List String → List String → List String × List Release
  | [], pkgsLeft => (pkgsLeft, [])
  | pkgName :: rest, pkgsLeft =>
    if confirmMajorRelease (pkgJsonFor pkgName) (confirmAnswers pkgName) then
      let r := majorRound pkgJsonFor confirmAnswers rest (pkgsLeft.erase pkgName)
      (r.1, { name := pkgName, type := "major" } :: r.2)
    else majorRound pkgJsonFor confirmAnswers rest pkgsLeft

/-- Models the minor round of createChangeset.ts (lines 279-284): every
package in the (already label-filtered) minor selection is removed from
the working set and pushed as a minor `Release`. -/
def minorRound : List String → List String → List String × List Release
  | [], pkgsLeft => (pkgsLeft, [])
  | pkgName :: rest, pkgsLeft =>
    let r := minorRound rest (pkgsLeft.erase pkgName)
    (r.1, { name := pkgName, type := "minor" } :: r.2)

/-- All user answers consumed by one `createChangeset` session.  Answers
to prompts that happen to not run in a given control path are simply
ignored, exactly as unconsumed user input would be. -/
structure Answers where
  /-- Successive answers to the initial "which packages" checkbox. -/
  packageSelections : List (List String)
  /-- Answer to the "what kind of change are you making?" checkbox. -/
  categorySelection : List String
  /-- Answer to the "which packages should have a major bump?" checkbox. -/
  majorSelection : List String
  /-- Per-package answer to the first-major-release confirmation. -/
  majorConfirm : String → Bool
  /-- Answer to the "which packages should have a minor bump?" checkbox. -/
  minorSelection : List String
  /-- Answer to "reuse the same message for all packages of this bump type?". -/
  sameMessage : Bool
  /-- Description given for a (bump type, category) pair in the shared-message branch. -/
  sharedDescription : String → String → String
  /-- Description given for a (release, category) pair in the per-release branch. -/
  releaseDescription : Release → String → String
  /-- Answers to the `setSummary` call for the i-th changeset of the list. -/
  summaries : Nat → SummaryAnswers
  /-- Single-package path: answer to the patch/minor/major list prompt. -/
  typeAnswer : String
  /-- Single-package path: answer to the first-major-release confirmation. -/
  confirmAnswer : Bool

/-- Models the bump-type resolution of the multi-package path
(createChangeset.ts, lines 184-297): successive elimination over the
working set `new Set(packagesToRelease)` — the major round, then (if
packages remain) the minor round, then (if packages remain) every
remaining package is auto-assigned patch.  Releases are accumulated in
push order: majors, then minors, then patches. -/
def resolveReleases (allPackages : List Package) (ans : Answers)
    (packagesToRelease : List String) : List Release :=
  let pkgsLeft0 := dedupFirst packagesToRelease
  let afterMajor := majorRound (pkgJsonsLookup allPackages) ans.majorConfirm
      (ans.majorSelection.filter (fun p => p ≠ "all packages")) pkgsLeft0
  let afterMinor :=
    if afterMajor.1.isEmpty then (afterMajor.1, ([] : List Release))
    else minorRound (ans.minorSelection.filter (fun p => p ≠ "all packages")) afterMajor.1
  let patchReleases :=
    if afterMinor.1.isEmpty then ([] : List Release)
    else afterMinor.1.map (fun pkgName => ({ name := pkgName, type := "patch" } : Release))
  afterMajor.2 ++ afterMinor.2 ++ patchReleases

/-- Models the shared accumulation of the "reuse the same message" = yes
branch (createChangeset.ts, lines 304-319): one `CategoryOfChange` per
(distinct bump type present among the releases, chosen category) pair, in
iteration order.  In the source this list is accumulated into the
function-level `categoryOfChangeList` variable, which is never read
afterwards — no changeset ever carries it. -/
def sharedCategoryOfChangeList (ans : Answers) (releases : List Release) :
    List CategoryOfChange :=
  (dedupFirst (releases.map (fun rel => rel.type))).flatMap
    (fun bumpType => ans.categorySelection.map
      (fun category =>
        ({ description := ans.sharedDescription bumpType category, category := category } :
          CategoryOfChange)))

/-- Models the "reuse the same message" = no branch (createChangeset.ts,
lines 320-338): one changeset per release, holding only that release, its
individually-prompted category list, an empty summary and `confirmed :=
true`. -/
def perReleaseChangesets (ans : Answers) (releases : List Release) :
    List ChangesetWithConfirmed :=
  releases.map (fun release =>
    { confirmed := true
      summary := ""
      categoryOfChangeList := ans.categorySelection.map
        (fun category =>
          ({ description := ans.releaseDescription release category, category := category } :
            CategoryOfChange))
      releases := [release] })

/-- Outcome of a Builder session: a thrown `ExitError`, an interactive
loop that never terminates, or the returned changeset list. -/
inductive BuildResult where
  | exit (code : Nat)
  | hang
  | ok (changesets : List ChangesetWithConfirmed)
deriving DecidableEq, Repr

/-- Models the final loop of `createChangeset` (lines 365-367): the i-th
changeset of the list receives `setSummary` with the i-th summary
answers; `none` models any of those loops never terminating. -/
def applySummaries (summaries : Nat → SummaryAnswers) :
    Nat → List ChangesetWithConfirmed → Option (List ChangesetWithConfirmed)
  | _, [] => some []
  | i, c :: cs =>
    match setSummary c (summaries i), applySummaries summaries (i + 1) cs with
    | some c2, some cs2 => some (c2 :: cs2)
    | _, _ => none

/-- Runs the final `setSummary` loop and wraps the outcome. -/
def finalizeChangesets (ans : Answers) (changesetList : List ChangesetWithConfirmed) :
    BuildResult :=
  match applySummaries ans.summaries 0 changesetList with
  | some cs => BuildResult.ok cs
  | none => BuildResult.hang

/-- Models `createChangeset` (createChangeset.ts, lines 165-370).
Multi-package path: resolve the candidate set, read the category
selection, resolve bump types by successive elimination; if categories
were chosen, either accumulate the shared category list (never attached
to any changeset — `changesetList` stays empty) or build one changeset
per release; otherwise build the single all-releases changeset.
Single-package path: one bump-type answer, with `ExitError(1)` when a
first major release is declined.  Finally `setSummary` runs on every
changeset of the list. -/
def createChangeset (changedPackages : List String) (allPackages : List Package)
    (ans : Answers) : BuildResult :=
  if 1 < allPackages.length then
    match getPackagesToRelease changedPackages allPackages ans.packageSelections with
    | none => BuildResult.hang
    | some packagesToRelease =>
      let shouldAskChangeTypes := !ans.categorySelection.isEmpty
      let releases := resolveReleases allPackages ans packagesToRelease
      let changesetList :=
        if shouldAskChangeTypes then
          if ans.sameMessage then ([] : List ChangesetWithConfirmed)
          else perReleaseChangesets ans releases
        else
          [{ confirmed := false, summary := "", categoryOfChangeList := [],
             releases := releases }]
      finalizeChangesets ans changesetList
  else
    let pkg := allPackages.headD defaultPackage
    if ans.typeAnswer = "major" ∧ confirmMajorRelease pkg.packageJson ans.confirmAnswer = false
    then BuildResult.exit 1
    else
      finalizeChangesets ans
        [{ confirmed := false, summary := "", categoryOfChangeList := [],
           releases := [{ name := pkg.packageJson.name, type := ans.typeAnswer }] }]

/-- Array.prototype.join with a separator, as used by the Serializer. -/
def joinWith (sep : String) : List String → String
  | [] => ""
  | [x] => x
  | x :: y :: xs => x ++ sep ++ joinWith sep (y :: xs)

namespace WriteLegacy

/-- Models `groupByBumpType` (src/unnamed/part_000, lines 13-26) together
with the `Object.entries` view taken of its result: buckets in key
insertion order major, minor, patch, none.  The if/else-if chain sends a
release whose type matches none of major/minor/patch into the major
bucket, so the none bucket is always empty. -/
def groupByBumpType (releases : List Release) : List (String × List Release) :=
  [("major", releases.filter (fun rel => rel.type ≠ "minor" ∧ rel.type ≠ "patch")),
   ("minor", releases.filter (fun rel => rel.type = "minor")),
   ("patch", releases.filter (fun rel => rel.type = "patch")),
   ("none", ([] : List Release))]

/-- Models `getReleasesSection` (src/unnamed/part_000, lines 27-31): a
`---`-delimited block of quoted `"name": type` lines, with no trailing
newline after the closing delimiter. -/
def getReleasesSection (releases : List Release) : String :=
  "---\n"
  ++ joinWith "\n" (releases.map (fun release => "\"" ++ release.name ++ "\": " ++ release.type))
  ++ "\n---"

/-- Models `getChangeTypesSection` (src/unnamed/part_000, lines 32-40):
the `- [ kind ] description` lines of the entries whose `type` field
equals the bump type (the Builder's records have no `type` field, read as
`undefined`, modelled by `none`). -/
def getChangeTypesSection (changeTypes : List CategoryOfChange) (bumpType : String) : String :=
  joinWith "\n" ((changeTypes.filter (fun chk => chk.type = some bumpType)).map
    (fun chk => "- [ " ++ getKindTitle chk.category ++ " ] " ++ chk.description))

/-- The non-empty buckets, in the fixed major, minor, patch, none order:
models `Object.entries(groupByBumpType(releases)).filter(([, releases])
=> releases.length)` (src/unnamed/part_000, lines 61-62). -/
def groupedBlocks (releases : List Release) : List (String × List Release) :=
  (groupByBumpType releases).filter (fun entry => !entry.2.isEmpty)

/-- The bump types for which a header block is emitted, in emission order. -/
def emittedSeverities (releases : List Release) : List String :=
  (groupedBlocks releases).map (fun entry => entry.1)

/-- Models `releasesGroupedByBumpTypes` (src/unnamed/part_000, lines
61-68): one header block plus category section per non-empty bucket. -/
def releasesGroupedByBumpTypes (releases : List Release)
    (categoryOfChangeList : List CategoryOfChange) : String :=
  joinWith "\n" ((groupedBlocks releases).map
    (fun entry => getReleasesSection entry.2 ++ " \n" ++ getChangeTypesSection categoryOfChangeList entry.1))

/-- Models `changesetContents` (src/unnamed/part_000, lines 72-79): the
severity-grouped rendering when a non-empty category-of-change list is
present, the single header block otherwise, followed by the summary. -/
def changesetContents (changeset : Changeset) : String :=
  (if changeset.categoryOfChangeList.isEmpty then getReleasesSection changeset.releases
   else releasesGroupedByBumpTypes changeset.releases changeset.categoryOfChangeList)
  ++ "\n\n" ++ changeset.summary ++ "\n  "

end WriteLegacy

namespace Write

/-- Models `groupByBumpType` (src/packages/write/src/index.ts, lines
13-26), identical to the legacy version — see
`Changesets.WriteLegacy.groupByBumpType`. -/
def groupByBumpType (releases : List Release) : List (String × List Release) :=
  [("major", releases.filter (fun rel => rel.type ≠ "minor" ∧ rel.type ≠ "patch")),
   ("minor", releases.filter (fun rel => rel.type = "minor")),
   ("patch", releases.filter (fun rel => rel.type = "patch")),
   ("none", ([] : List Release))]

/-- Models `getReleasesSection` (src/packages/write/src/index.ts, lines
27-31): as the legacy version but with a trailing newline after the
closing delimiter. -/
def getReleasesSection (releases : List Release) : String :=
  "---\n"
  ++ joinWith "\n" (releases.map (fun release => "\"" ++ release.name ++ "\": " ++ release.type))
  ++ "\n---\n"

/-- Models `getChangeTypesSection` (src/packages/write/src/index.ts,
lines 32-43): with a bump type given (JavaScript truthiness: the empty
string counts as absent) the entries are filtered on their `type` field,
otherwise all entries are rendered; a newline terminates the section. -/
def getChangeTypesSection (changeTypes : List CategoryOfChange) (bumpType : Option String) :
    String :=
  let filtered :=
    match bumpType with
    | some bt => if bt = "" then changeTypes else changeTypes.filter (fun chk => chk.type = some bt)
    | none => changeTypes
  joinWith "\n" (filtered.map
    (fun chk => "- [ " ++ getKindTitle chk.category ++ " ] " ++ chk.description)) ++ "\n"

/-- The non-empty buckets, as in the legacy version. -/
def groupedBlocks (releases : List Release) : List (String × List Release) :=
  (groupByBumpType releases).filter (fun entry => !entry.2.isEmpty)

/-- Models `getReleasesAndChangeTypes` (src/packages/write/src/index.ts,
lines 45-69); the source's `splitReleasesByBumpType` parameter defaults
to `false` and `writeChangeset` passes nothing for it. -/
def getReleasesAndChangeTypes (releases : List Release)
    (categoryOfChangeList : List CategoryOfChange) (splitReleasesByBumpType : Bool) : String :=
  if splitReleasesByBumpType && !categoryOfChangeList.isEmpty then
    joinWith "\n" ((groupedBlocks releases).map
      (fun entry =>
        getReleasesSection entry.2 ++ "\n" ++ getChangeTypesSection categoryOfChangeList (some entry.1)))
  else if !categoryOfChangeList.isEmpty then
    getReleasesSection releases ++ " \n  " ++ getChangeTypesSection categoryOfChangeList none
  else getReleasesSection releases

/-- Models `changesetContents` (src/packages/write/src/index.ts, lines
90-100): the header/body rendering followed by the summary. -/
def changesetContents (changeset : Changeset) : String :=
  getReleasesAndChangeTypes changeset.releases changeset.categoryOfChangeList false
  ++ "\n\n" ++ changeset.summary ++ "\n  "

/-- Models `writeChangeset` (src/packages/write/src/index.ts, lines
71-111) with its external collaborators as parameters: `format` models
`prettier.format` with the resolved configuration (it may raise),
`changesetID` models the `humanId()` result, and the file system is an
association list from paths to contents.  The formatted text is computed
before `fs.writeFile` runs, so a formatter error propagates and no file
is added. -/
def writeChangeset (format : String → Except String String) (changesetID : String)
    (changeset : Changeset) (fsys : List (String × String)) :
    Except String (List (String × String) × String) :=
  let newChangesetPath := ".changeset/" ++ changesetID ++ ".md"
  match format (changesetContents changeset) with
  | Except.error e => Except.error e
  | Except.ok formatted => Except.ok ((newChangesetPath, formatted) :: fsys, changesetID)

end Write

/-- Splits a character list at newline characters (document lines). -/
def splitLines : List Char → List (List Char)
  | [] => [[]]
  | c :: cs =>
    if c = '\n' then [] :: splitLines cs
    else
      match splitLines cs with
      | [] => [[c]]
      | line :: rest => (c :: line) :: rest

/-- Parses one quoted header line back into a (package name, bump type)
pair, following the spec's description of the header sub-format: an
opening quote, the package name up to the closing quote, then a colon, a
space and the bump type. -/
def parseHeaderLine : List Char → Option (String × String)
  | '\"' :: rest =>
    (match rest.dropWhile (fun c => c ≠ '\"') with
     | '\"' :: ':' :: ' ' :: ty => some (String.mk (rest.takeWhile (fun c => c ≠ '\"')), String.mk ty)
     | _ => none)
  | _ => none

/-- Parses the header lines up to the closing `---` delimiter. -/
def parseHeaderLines : List (List Char) → Option (List (String × String))
  | [] => none
  | line :: rest =>
    if line = ['-', '-', '-'] then some []
    else
      match parseHeaderLine line, parseHeaderLines rest with
      | some pair, some pairs => some (pair :: pairs)
      | _, _ => none

/-- Parses the opening header block of a rendered changeset document:
splits the document into lines, expects the opening `---` delimiter, and
reads quoted release lines up to the closing delimiter. -/
def parseChangesetHeader (doc : String) : Option (List (String × String)) :=
  match splitLines doc.data with
  | firstLine :: rest => if firstLine = ['-', '-', '-'] then parseHeaderLines rest else none
  | [] => none

/-- The names of the releases carrying a given bump type — the bump-type
group of a resolved release list. -/
def releaseGroup (releases : List Release) (bumpType : String) : List String :=
  (releases.filter (fun r => r.type = bumpType)).map (fun r => r.name)

/-- The major-round checkbox answer with the "all packages" group label
filtered out (createChangeset.ts, line 231). -/
def majorSelFiltered (ans : Answers) : List String :=
  ans.majorSelection.filter (fun p => p ≠ "all packages")

/-- The minor-round checkbox answer with the "all packages" group label
filtered out (createChangeset.ts, line 277). -/
def minorSelFiltered (ans : Answers) : List String :=
  ans.minorSelection.filter (fun p => p ≠ "all packages")

/-- Whether the first-major-release confirmation for a package comes out
accepted in this session. -/
def confirmedMajor (allPackages : List Package) (ans : Answers) (p : String) : Bool :=
  confirmMajorRelease (pkgJsonsLookup allPackages p) (ans.majorConfirm p)

/-- The packages assigned major in the major round: the selected packages
whose confirmation (when required) is accepted, in selection order. -/
def majorAssigned (allPackages : List Package) (ans : Answers) : List String :=
  (majorSelFiltered ans).filter (confirmedMajor allPackages ans)

/-- The working set remaining after the major round. -/
def leftAfterMajor (allPackages : List Package) (ans : Answers)
    (packagesToRelease : List String) : List String :=
  (dedupFirst packagesToRelease).diff (majorAssigned allPackages ans)

/-- The working set remaining after the minor round (the minor round only
runs when packages remain after the major round). -/
def leftAfterMinor (allPackages : List Package) (ans : Answers)
    (packagesToRelease : List String) : List String :=
  if (leftAfterMajor allPackages ans packagesToRelease).isEmpty then
    leftAfterMajor allPackages ans packagesToRelease
  else (leftAfterMajor allPackages ans packagesToRelease).diff (minorSelFiltered ans)

/-- Concrete workspace package used by the witnesses: `a` at `1.0.0`. -/
def wpkgA : Package :=
  { packageJson := { name := "a", version := { major := 1, minor := 0, patch := 0, prerelease := [] } } }

/-- Concrete workspace package used by the witnesses: `b` at `0.5.0`. -/
def wpkgB : Package :=
  { packageJson := { name := "b", version := { major := 0, minor := 5, patch := 0, prerelease := [] } } }

/-- Concrete workspace package used by the witnesses: `c` at `2.1.3`. -/
def wpkgC : Package :=
  { packageJson := { name := "c", version := { major := 2, minor := 1, patch := 3, prerelease := [] } } }

/-- Baseline concrete answer set used by the witnesses: select all of
`a`, `b`, `c`; pick no categories; mark `a` and `b` for major but decline
the first-major confirmation of `b`; mark `b` for minor; answer every
summary prompt with a fixed non-empty text. -/
def baseAnswers : Answers :=
  { packageSelections := [["a", "b", "c"]]
    categorySelection := []
    majorSelection := ["a", "b"]
    majorConfirm := fun p => p ≠ "b"
    minorSelection := ["b"]
    sameMessage := false
    sharedDescription := fun _ _ => "shared description"
    releaseDescription := fun _ _ => "release description"
    summaries := fun _ => { first := "a summary", editor := none, retries := [] }
    typeAnswer := "patch"
    confirmAnswer := true }

/-- Concrete answers for the single-package abort witness: choose major
and decline the first-major confirmation. -/
def abortAnswers : Answers :=
  { baseAnswers with typeAnswer := "major", confirmAnswer := false }

/-- Concrete answers engaging the category-of-change workflow with
"reuse the same message" answered yes. -/
def sharedAnswers : Answers :=
  { baseAnswers with categorySelection := ["Added (new things)"], sameMessage := true }

/-- Concrete answers engaging the category-of-change workflow with
"reuse the same message" answered no. -/
def perReleaseAnswers : Answers :=
  { baseAnswers with categorySelection := ["Added (new things)"], sameMessage := false }

/-- The changeset list `createChangeset` returns for `perReleaseAnswers`
on the three-package workspace. -/
def perReleaseResult : List ChangesetWithConfirmed :=
  [{ confirmed := false, summary := "a summary",
     categoryOfChangeList := [{ description := "release description", category := "Added (new things)" }],
     releases := [{ name := "a", type := "major" }] },
   { confirmed := false, summary := "a summary",
     categoryOfChangeList := [{ description := "release description", category := "Added (new things)" }],
     releases := [{ name := "b", type := "minor" }] },
   { confirmed := false, summary := "a summary",
     categoryOfChangeList := [{ description := "release description", category := "Added (new things)" }],
     releases := [{ name := "c", type := "patch" }] }]

end Changesets

namespace Changesets

/-! Helper lemmas about strings, deduplication, the bump rounds, and the
summary loop. -/

lemma string_eq_empty_of_length_eq_zero {s : String} (h : s.length = 0) : s = "" := by
  cases s with
  | mk d =>
    cases d with
    | nil => rfl
    | cons c cs => simp [String.length] at h

lemma string_ne_empty_of_length_ne_zero {s : String} (h : s.length ≠ 0) : s ≠ "" := by
  intro he
  subst he
  exact h rfl

lemma string_ne_empty_of_length_pos {s : String} (h : 0 < s.length) : s ≠ "" :=
  string_ne_empty_of_length_ne_zero (Nat.pos_iff_ne_zero.mp h)

lemma string_ne_empty_of_isEmpty_false {s : String} (h : s.isEmpty = false) : s ≠ "" := by
  intro he
  subst he
  exact absurd h (by decide)

lemma mem_dedupFirstAux {a : String} :
    ∀ {l seen : List String}, a ∈ dedupFirstAux seen l ↔ a ∈ l ∧ a ∉ seen := by
  intro l
  induction l with
  | nil => intro seen; simp [dedupFirstAux]
  | cons b bs ih =>
    intro seen
    by_cases hb : b ∈ seen
    · rw [dedupFirstAux, if_pos hb, ih]
      by_cases hab : a = b
      · subst hab; simp [hb]
      · simp [hab]
    · rw [dedupFirstAux, if_neg hb]
      by_cases hab : a = b
      · subst hab; simp [hb]
      · simp [ih, hab]

lemma mem_dedupFirst {a : String} {l : List String} : a ∈ dedupFirst l ↔ a ∈ l := by
  unfold dedupFirst
  rw [mem_dedupFirstAux]
  simp

lemma nodup_dedupFirstAux : ∀ (l seen : List String), (dedupFirstAux seen l).Nodup := by
  intro l
  induction l with
  | nil => intro seen; simp [dedupFirstAux]
  | cons b bs ih =>
    intro seen
    by_cases hb : b ∈ seen
    · rw [dedupFirstAux, if_pos hb]
      exact ih seen
    · rw [dedupFirstAux, if_neg hb]
      refine List.nodup_cons.mpr ⟨fun hmem => ?_, ih (b :: seen)⟩
      exact (mem_dedupFirstAux.mp hmem).2 (List.mem_cons_self b seen)

lemma nodup_dedupFirst (l : List String) : (dedupFirst l).Nodup :=
  nodup_dedupFirstAux l []

lemma majorRound_snd (pkgJsonFor : String → PackageJSON) (confirmAnswers : String → Bool) :
    ∀ (sel pkgsLeft : List String),
      (majorRound pkgJsonFor confirmAnswers sel pkgsLeft).2
        = (sel.filter (fun p => confirmMajorRelease (pkgJsonFor p) (confirmAnswers p))).map
            (fun p => ({ name := p, type := "major" } : Release)) := by
  intro sel
  induction sel with
  | nil => intro pkgsLeft; simp [majorRound]
  | cons p rest ih =>
    intro pkgsLeft
    by_cases hc : confirmMajorRelease (pkgJsonFor p) (confirmAnswers p) = true
    · simp [majorRound, hc, List.filter_cons, ih]
    · rw [Bool.not_eq_true] at hc
      simp [majorRound, hc, List.filter_cons, ih]

lemma majorRound_fst (pkgJsonFor : String → PackageJSON) (confirmAnswers : String → Bool) :
    ∀ (sel pkgsLeft : List String),
      (majorRound pkgJsonFor confirmAnswers sel pkgsLeft).1
        = pkgsLeft.diff
            (sel.filter (fun p => confirmMajorRelease (pkgJsonFor p) (confirmAnswers p))) := by
  intro sel
  induction sel with
  | nil => intro pkgsLeft; simp [majorRound]
  | cons p rest ih =>
    intro pkgsLeft
    by_cases hc : confirmMajorRelease (pkgJsonFor p) (confirmAnswers p) = true
    · simp [majorRound, hc, List.filter_cons, List.diff_cons, ih]
    · rw [Bool.not_eq_true] at hc
      simp [majorRound, hc, List.filter_cons, ih]

lemma minorRound_snd : ∀ (sel pkgsLeft : List String),
    (minorRound sel pkgsLeft).2
      = sel.map (fun p => ({ name := p, type := "minor" } : Release)) := by
  intro sel
  induction sel with
  | nil => intro pkgsLeft; simp [minorRound]
  | cons p rest ih => intro pkgsLeft; simp [minorRound, ih]

lemma minorRound_fst : ∀ (sel pkgsLeft : List String),
    (minorRound sel pkgsLeft).1 = pkgsLeft.diff sel := by
  intro sel
  induction sel with
  | nil => intro pkgsLeft; simp [minorRound]
  | cons p rest ih => intro pkgsLeft; simp [minorRound, List.diff_cons, ih]

lemma releaseGroup_append (l1 l2 : List Release) (t : String) :
    releaseGroup (l1 ++ l2) t = releaseGroup l1 t ++ releaseGroup l2 t := by
  simp [releaseGroup, List.filter_append]

lemma releaseGroup_map_same (names : List String) (t : String) :
    releaseGroup (names.map (fun p => ({ name := p, type := t } : Release))) t = names := by
  induction names with
  | nil => simp [releaseGroup]
  | cons a as ih => simpa [releaseGroup, List.filter_cons] using ih

lemma releaseGroup_map_other (names : List String) {t t2 : String} (h : t ≠ t2) :
    releaseGroup (names.map (fun p => ({ name := p, type := t } : Release))) t2 = [] := by
  induction names with
  | nil => simp [releaseGroup]
  | cons a as ih => simp [releaseGroup, List.filter_cons, h]

lemma editorAnswer_length_pos {ans : SummaryAnswers} {t : String}
    (h : editorAnswer ans = some t) : 0 < t.length := by
  unfold editorAnswer at h
  split at h
  · split at h
    · cases h; assumption
    · exact absurd h (by simp)
  · exact absurd h (by simp)

lemma setSummary_eq_some {changeSet c2 : ChangesetWithConfirmed} {ans : SummaryAnswers}
    (h : setSummary changeSet ans = some c2) :
    c2.summary ≠ "" ∧ c2.releases = changeSet.releases
      ∧ c2.categoryOfChangeList = changeSet.categoryOfChangeList := by
  unfold setSummary at h
  by_cases h1 : ans.first.length = 0
  · rw [if_pos h1] at h
    cases he : editorAnswer ans with
    | some t =>
      rw [he] at h
      cases h
      exact ⟨string_ne_empty_of_length_pos (editorAnswer_length_pos he), rfl, rfl⟩
    | none =>
      rw [he] at h
      cases hf : ans.retries.find? (fun s => !s.isEmpty) with
      | some s =>
        rw [hf] at h
        cases h
        have hs := List.find?_some hf
        simp only [Bool.not_eq_true'] at hs
        exact ⟨string_ne_empty_of_isEmpty_false hs, rfl, rfl⟩
      | none => rw [hf] at h; exact absurd h (by simp)
  · rw [if_neg h1] at h
    cases h
    exact ⟨string_ne_empty_of_length_ne_zero h1, rfl, rfl⟩

lemma applySummaries_eq_some {summaries : Nat → SummaryAnswers} :
    ∀ {L L2 : List ChangesetWithConfirmed} {i : Nat},
      applySummaries summaries i L = some L2 →
      L2.length = L.length
      ∧ ∀ j (h1 : j < L2.length) (h2 : j < L.length),
          setSummary (L.get ⟨j, h2⟩) (summaries (i + j)) = some (L2.get ⟨j, h1⟩) := by
  intro L
  induction L with
  | nil =>
    intro L2 i h
    simp only [applySummaries] at h
    cases h
    exact ⟨rfl, fun j h1 h2 => absurd h2 (by simp)⟩
  | cons c cs ih =>
    intro L2 i h
    unfold applySummaries at h
    cases hs : setSummary c (summaries i) with
    | none => rw [hs] at h; exact absurd h (by simp)
    | some c2 =>
      cases hr : applySummaries summaries (i + 1) cs with
      | none => rw [hs, hr] at h; exact absurd h (by simp)
      | some cs2 =>
        rw [hs, hr] at h
        cases h
        obtain ⟨hlen, hidx⟩ := ih hr
        refine ⟨by simp [hlen], ?_⟩
        intro j h1 h2
        cases j with
        | zero => simpa using hs
        | succ j2 =>
          have heq : i + (j2 + 1) = (i + 1) + j2 := by omega
          rw [heq]
          exact hidx j2 (by simpa using h1) (by simpa using h2)

lemma applySummaries_mem {summaries : Nat → SummaryAnswers} :
    ∀ {L L2 : List ChangesetWithConfirmed} {i : Nat},
      applySummaries summaries i L = some L2 →
      ∀ c2 ∈ L2, ∃ c ∈ L, ∃ a, setSummary c a = some c2 := by
  intro L
  induction L with
  | nil =>
    intro L2 i h
    simp only [applySummaries] at h
    cases h
    intro c2 hc2
    exact absurd hc2 (by simp)
  | cons c cs ih =>
    intro L2 i h
    unfold applySummaries at h
    cases hs : setSummary c (summaries i) with
    | none => rw [hs] at h; exact absurd h (by simp)
    | some c2 =>
      cases hr : applySummaries summaries (i + 1) cs with
      | none => rw [hs, hr] at h; exact absurd h (by simp)
      | some cs2 =>
        rw [hs, hr] at h
        cases h
        intro d hd
        rcases List.mem_cons.mp hd with rfl | hd2
        · exact ⟨c, List.mem_cons_self c cs, summaries i, hs⟩
        · obtain ⟨c0, hc0, a, ha⟩ := ih hr d hd2
          exact ⟨c0, List.mem_cons_of_mem _ hc0, a, ha⟩

lemma finalizeChangesets_ne_exit (ans : Answers) (L : List ChangesetWithConfirmed)
    (code : Nat) : finalizeChangesets ans L ≠ BuildResult.exit code := by
  unfold finalizeChangesets
  cases h : applySummaries ans.summaries 0 L <;> simp

lemma finalizeChangesets_eq_ok {ans : Answers} {L cs : List ChangesetWithConfirmed}
    (h : finalizeChangesets ans L = BuildResult.ok cs) :
    applySummaries ans.summaries 0 L = some cs := by
  unfold finalizeChangesets at h
  cases hh : applySummaries ans.summaries 0 L with
  | none => rw [hh] at h; exact absurd h (by simp)
  | some cs2 => rw [hh] at h; cases h; rfl

end Changesets

namespace Changesets

/-! Structural lemmas about the bump-type resolution pipeline. -/

lemma list_ne_nil_of_isEmpty_false {α : Type} {l : List α} (h : l.isEmpty = false) :
    l ≠ [] := by
  intro he
  subst he
  simp at h

lemma mem_majorSelFiltered {ans : Answers} {p : String} :
    p ∈ majorSelFiltered ans ↔ p ∈ ans.majorSelection ∧ p ≠ "all packages" := by
  simp [majorSelFiltered]

lemma mem_minorSelFiltered {ans : Answers} {p : String} :
    p ∈ minorSelFiltered ans ↔ p ∈ ans.minorSelection ∧ p ≠ "all packages" := by
  simp [minorSelFiltered]

lemma majorAssigned_subset (allPackages : List Package) (ans : Answers) :
    majorAssigned allPackages ans ⊆ majorSelFiltered ans :=
  (List.filter_sublist _).subset

lemma mem_leftAfterMajor {allPackages : List Package} {ans : Answers}
    {packagesToRelease : List String} {p : String} :
    p ∈ leftAfterMajor allPackages ans packagesToRelease ↔
      p ∈ packagesToRelease ∧ p ∉ majorAssigned allPackages ans := by
  unfold leftAfterMajor
  rw [(nodup_dedupFirst packagesToRelease).mem_diff_iff, mem_dedupFirst]

lemma nodup_leftAfterMajor (allPackages : List Package) (ans : Answers)
    (packagesToRelease : List String) :
    (leftAfterMajor allPackages ans packagesToRelease).Nodup :=
  (nodup_dedupFirst packagesToRelease).diff

lemma mem_leftAfterMinor_of_ne {allPackages : List Package} {ans : Answers}
    {packagesToRelease : List String} {p : String}
    (hne : (leftAfterMajor allPackages ans packagesToRelease).isEmpty = false) :
    p ∈ leftAfterMinor allPackages ans packagesToRelease ↔
      p ∈ leftAfterMajor allPackages ans packagesToRelease ∧ p ∉ minorSelFiltered ans := by
  unfold leftAfterMinor
  rw [hne]
  simp only [Bool.false_eq_true, if_false]
  exact (nodup_leftAfterMajor allPackages ans packagesToRelease).mem_diff_iff

lemma resolveReleases_eq (allPackages : List Package) (ans : Answers)
    (packagesToRelease : List String) :
    resolveReleases allPackages ans packagesToRelease
      = (majorAssigned allPackages ans).map
          (fun p => ({ name := p, type := "major" } : Release))
        ++ (if (leftAfterMajor allPackages ans packagesToRelease).isEmpty then []
            else (minorSelFiltered ans).map
              (fun p => ({ name := p, type := "minor" } : Release)))
        ++ (leftAfterMinor allPackages ans packagesToRelease).map
            (fun p => ({ name := p, type := "patch" } : Release)) := by
  have h1 : (majorRound (pkgJsonsLookup allPackages) ans.majorConfirm
        (ans.majorSelection.filter (fun p => p ≠ "all packages"))
        (dedupFirst packagesToRelease)).1
      = leftAfterMajor allPackages ans packagesToRelease := by
    rw [majorRound_fst]
    rfl
  have h2 : (majorRound (pkgJsonsLookup allPackages) ans.majorConfirm
        (ans.majorSelection.filter (fun p => p ≠ "all packages"))
        (dedupFirst packagesToRelease)).2
      = (majorAssigned allPackages ans).map
          (fun p => ({ name := p, type := "major" } : Release)) := by
    rw [majorRound_snd]
    rfl
  cases hL : (leftAfterMajor allPackages ans packagesToRelease).isEmpty with
  | true =>
    have hnil : leftAfterMajor allPackages ans packagesToRelease = [] :=
      List.isEmpty_iff.mp hL
    have h3 : leftAfterMinor allPackages ans packagesToRelease = [] := by
      unfold leftAfterMinor
      rw [hL, if_pos rfl]
      exact hnil
    unfold resolveReleases
    simp only [h1, h2, hnil, h3]
    simp
  | false =>
    have h3 : leftAfterMinor allPackages ans packagesToRelease
        = (leftAfterMajor allPackages ans packagesToRelease).diff
            (ans.minorSelection.filter (fun p => p ≠ "all packages")) := by
      unfold leftAfterMinor
      rw [hL]
      simp only [Bool.false_eq_true, if_false]
      rfl
    unfold resolveReleases
    simp only [h1, h2, hL, Bool.false_eq_true, if_false, minorRound_fst, minorRound_snd]
    rw [← h3]
    cases hM : (leftAfterMinor allPackages ans packagesToRelease).isEmpty with
    | true =>
      have hnil : leftAfterMinor allPackages ans packagesToRelease = [] :=
        List.isEmpty_iff.mp hM
      simp [hnil, minorSelFiltered]
    | false =>
      simp [hM, minorSelFiltered]

end Changesets

namespace Changesets

lemma leftAfterMinor_eq_nil {allPackages : List Package} {ans : Answers}
    {packagesToRelease : List String}
    (hL : (leftAfterMajor allPackages ans packagesToRelease).isEmpty = true) :
    leftAfterMinor allPackages ans packagesToRelease = [] := by
  unfold leftAfterMinor
  rw [hL, if_pos rfl]
  exact List.isEmpty_iff.mp hL

lemma leftAfterMinor_eq_diff {allPackages : List Package} {ans : Answers}
    {packagesToRelease : List String}
    (hL : (leftAfterMajor allPackages ans packagesToRelease).isEmpty = false) :
    leftAfterMinor allPackages ans packagesToRelease
      = (leftAfterMajor allPackages ans packagesToRelease).diff (minorSelFiltered ans) := by
  unfold leftAfterMinor
  rw [hL]
  simp

/-- C2: in the multi-package path, assuming each checkbox prompt returns
a subset of the options it was offered (the major prompt offers the
candidate packages, the minor prompt offers the packages left unassigned
after the major round), the major, minor and patch release groups
produced by the successive-elimination procedure partition the selected
candidate package set: every candidate package appears in exactly one of
the three groups, with no overlaps and no omissions. -/
theorem changesets_c2_partition (allPackages : List Package) (ans : Answers)
    (packagesToRelease : List String)
    (hmaj : ∀ p ∈ ans.majorSelection, p = "all packages" ∨ p ∈ packagesToRelease)
    (hmin : leftAfterMajor allPackages ans packagesToRelease ≠ [] →
      ∀ p ∈ ans.minorSelection, p = "all packages" ∨
        p ∈ leftAfterMajor allPackages ans packagesToRelease) :
    (∀ p, p ∈ packagesToRelease ↔
      (p ∈ releaseGroup (resolveReleases allPackages ans packagesToRelease) "major"
        ∨ p ∈ releaseGroup (resolveReleases allPackages ans packagesToRelease) "minor"
        ∨ p ∈ releaseGroup (resolveReleases allPackages ans packagesToRelease) "patch"))
    ∧ (∀ p, ¬(p ∈ releaseGroup (resolveReleases allPackages ans packagesToRelease) "major"
        ∧ p ∈ releaseGroup (resolveReleases allPackages ans packagesToRelease) "minor"))
    ∧ (∀ p, ¬(p ∈ releaseGroup (resolveReleases allPackages ans packagesToRelease) "major"
        ∧ p ∈ releaseGroup (resolveReleases allPackages ans packagesToRelease) "patch"))
    ∧ (∀ p, ¬(p ∈ releaseGroup (resolveReleases allPackages ans packagesToRelease) "minor"
        ∧ p ∈ releaseGroup (resolveReleases allPackages ans packagesToRelease) "patch")) := by
  have hAtoP : ∀ p ∈ majorAssigned allPackages ans, p ∈ packagesToRelease := by
    intro p hp
    obtain ⟨hsel, hne⟩ := mem_majorSelFiltered.mp (majorAssigned_subset allPackages ans hp)
    rcases hmaj p hsel with h | h
    · exact absurd h hne
    · exact h
  cases hL : (leftAfterMajor allPackages ans packagesToRelease).isEmpty with
  | true =>
    have hnil : leftAfterMajor allPackages ans packagesToRelease = [] :=
      List.isEmpty_iff.mp hL
    have hrs : resolveReleases allPackages ans packagesToRelease
        = (majorAssigned allPackages ans).map
            (fun p => ({ name := p, type := "major" } : Release)) := by
      rw [resolveReleases_eq, leftAfterMinor_eq_nil hL, hL]
      simp
    have hgmaj : releaseGroup (resolveReleases allPackages ans packagesToRelease) "major"
        = majorAssigned allPackages ans := by
      rw [hrs, releaseGroup_map_same]
    have hgmin : releaseGroup (resolveReleases allPackages ans packagesToRelease) "minor"
        = [] := by
      rw [hrs, releaseGroup_map_other _ (show ("major" : String) ≠ "minor" by decide)]
    have hgpat : releaseGroup (resolveReleases allPackages ans packagesToRelease) "patch"
        = [] := by
      rw [hrs, releaseGroup_map_other _ (show ("major" : String) ≠ "patch" by decide)]
    refine ⟨?_, ?_, ?_, ?_⟩
    · intro p
      rw [hgmaj, hgmin, hgpat]
      simp only [List.not_mem_nil, or_false]
      constructor
      · intro hp
        by_contra hpa
        have : p ∈ leftAfterMajor allPackages ans packagesToRelease :=
          mem_leftAfterMajor.mpr ⟨hp, hpa⟩
        rw [hnil] at this
        exact absurd this (List.not_mem_nil p)
      · exact hAtoP p
    · intro p h
      rw [hgmin] at h
      exact absurd h.2 (List.not_mem_nil p)
    · intro p h
      rw [hgpat] at h
      exact absurd h.2 (List.not_mem_nil p)
    · intro p h
      rw [hgpat] at h
      exact absurd h.2 (List.not_mem_nil p)
  | false =>
    have hne : leftAfterMajor allPackages ans packagesToRelease ≠ [] :=
      list_ne_nil_of_isEmpty_false hL
    have hminsub := hmin hne
    have hMtoL : ∀ p ∈ minorSelFiltered ans,
        p ∈ leftAfterMajor allPackages ans packagesToRelease := by
      intro p hp
      obtain ⟨hsel, hne2⟩ := mem_minorSelFiltered.mp hp
      rcases hminsub p hsel with h | h
      · exact absurd h hne2
      · exact h
    have hrs : resolveReleases allPackages ans packagesToRelease
        = (majorAssigned allPackages ans).map
            (fun p => ({ name := p, type := "major" } : Release))
          ++ (minorSelFiltered ans).map
            (fun p => ({ name := p, type := "minor" } : Release))
          ++ (leftAfterMinor allPackages ans packagesToRelease).map
            (fun p => ({ name := p, type := "patch" } : Release)) := by
      rw [resolveReleases_eq, hL]
      simp
    have hgmaj : releaseGroup (resolveReleases allPackages ans packagesToRelease) "major"
        = majorAssigned allPackages ans := by
      rw [hrs, releaseGroup_append, releaseGroup_append, releaseGroup_map_same,
        releaseGroup_map_other _ (show ("minor" : String) ≠ "major" by decide),
        releaseGroup_map_other _ (show ("patch" : String) ≠ "major" by decide)]
      simp
    have hgmin : releaseGroup (resolveReleases allPackages ans packagesToRelease) "minor"
        = minorSelFiltered ans := by
      rw [hrs, releaseGroup_append, releaseGroup_append, releaseGroup_map_same,
        releaseGroup_map_other _ (show ("major" : String) ≠ "minor" by decide),
        releaseGroup_map_other _ (show ("patch" : String) ≠ "minor" by decide)]
      simp
    have hgpat : releaseGroup (resolveReleases allPackages ans packagesToRelease) "patch"
        = leftAfterMinor allPackages ans packagesToRelease := by
      rw [hrs, releaseGroup_append, releaseGroup_append, releaseGroup_map_same,
        releaseGroup_map_other _ (show ("major" : String) ≠ "patch" by decide),
        releaseGroup_map_other _ (show ("minor" : String) ≠ "patch" by decide)]
      simp
    rw [hgmaj, hgmin, hgpat]
    refine ⟨?_, ?_, ?_, ?_⟩
    · intro p
      constructor
      · intro hp
        by_cases hA : p ∈ majorAssigned allPackages ans
        · exact Or.inl hA
        · have hL1 : p ∈ leftAfterMajor allPackages ans packagesToRelease :=
            mem_leftAfterMajor.mpr ⟨hp, hA⟩
          by_cases hMi : p ∈ minorSelFiltered ans
          · exact Or.inr (Or.inl hMi)
          · exact Or.inr (Or.inr ((mem_leftAfterMinor_of_ne hL).mpr ⟨hL1, hMi⟩))
      · intro hp
        rcases hp with h | h | h
        · exact hAtoP p h
        · exact (mem_leftAfterMajor.mp (hMtoL p h)).1
        · exact (mem_leftAfterMajor.mp ((mem_leftAfterMinor_of_ne hL).mp h).1).1
    · intro p h
      exact (mem_leftAfterMajor.mp (hMtoL p h.2)).2 h.1
    · intro p h
      exact (mem_leftAfterMajor.mp ((mem_leftAfterMinor_of_ne hL).mp h.2).1).2 h.1
    · intro p h
      exact ((mem_leftAfterMinor_of_ne hL).mp h.2).2 h.1

/-- Witness for C2: with candidates `a`, `b`, `c`, majors `a` (confirmed)
and `b` (declined), minor `b`, the partition instance puts `c` in the
patch group. -/
theorem changesets_c2_witness :
    "c" ∈ releaseGroup (resolveReleases [wpkgA, wpkgB, wpkgC] baseAnswers ["a", "b", "c"]) "major"
    ∨ "c" ∈ releaseGroup (resolveReleases [wpkgA, wpkgB, wpkgC] baseAnswers ["a", "b", "c"]) "minor"
    ∨ "c" ∈ releaseGroup (resolveReleases [wpkgA, wpkgB, wpkgC] baseAnswers ["a", "b", "c"]) "patch" :=
  ((changesets_c2_partition [wpkgA, wpkgB, wpkgC] baseAnswers ["a", "b", "c"]
    (by decide) (by decide)).1 "c").mp (by decide)

end Changesets

namespace Changesets

lemma confirmMajorRelease_eq_false_iff (pkgJSON : PackageJSON) (answer : Bool) :
    confirmMajorRelease pkgJSON answer = false ↔
      (semverLtOneZeroZero pkgJSON.version = true ∧ answer = false) := by
  unfold confirmMajorRelease
  cases h : semverLtOneZeroZero pkgJSON.version <;> simp [h]

/-- C4: in the single-package path, `createChangeset` raises `ExitError(1)`
if and only if the user selects major, the package's current version is
below 1.0.0, and the first-major-release confirmation is declined; the
exit code is always 1, and the multi-package path never raises (so no
changeset list is ever returned from an aborting run). -/
theorem changesets_c4_abort (changedPackages : List String) (pkg : Package) (ans : Answers) :
    (createChangeset changedPackages [pkg] ans = BuildResult.exit 1 ↔
      (ans.typeAnswer = "major" ∧ semverLtOneZeroZero pkg.packageJson.version = true
        ∧ ans.confirmAnswer = false))
    ∧ (∀ code, createChangeset changedPackages [pkg] ans = BuildResult.exit code → code = 1)
    ∧ (∀ allPackages : List Package, 1 < allPackages.length →
        ∀ code, createChangeset changedPackages allPackages ans ≠ BuildResult.exit code) := by
  have hmulti : ∀ allPackages : List Package, 1 < allPackages.length →
      ∀ code, createChangeset changedPackages allPackages ans ≠ BuildResult.exit code := by
    intro allPackages hlen code
    rw [createChangeset, if_pos hlen]
    cases hfind : getPackagesToRelease changedPackages allPackages ans.packageSelections with
    | none => simp
    | some packagesToRelease => exact finalizeChangesets_ne_exit ans _ code
  have hsingle : ∀ code, createChangeset changedPackages [pkg] ans = BuildResult.exit code ↔
      (code = 1 ∧ ans.typeAnswer = "major"
        ∧ confirmMajorRelease pkg.packageJson ans.confirmAnswer = false) := by
    intro code
    have hred : createChangeset changedPackages [pkg] ans
        = if ans.typeAnswer = "major"
            ∧ confirmMajorRelease pkg.packageJson ans.confirmAnswer = false
          then BuildResult.exit 1
          else finalizeChangesets ans
            [{ confirmed := false, summary := "", categoryOfChangeList := [],
               releases := [{ name := pkg.packageJson.name, type := ans.typeAnswer }] }] := by
      rw [createChangeset, if_neg (by simp)]
      rfl
    rw [hred]
    by_cases hcond : ans.typeAnswer = "major"
        ∧ confirmMajorRelease pkg.packageJson ans.confirmAnswer = false
    · rw [if_pos hcond]
      constructor
      · intro h
        cases h
        exact ⟨rfl, hcond⟩
      · intro h
        rw [h.1]
    · rw [if_neg hcond]
      constructor
      · intro h
        exact absurd h (finalizeChangesets_ne_exit ans _ code)
      · intro h
        exact absurd h.2 hcond
  refine ⟨?_, ?_, hmulti⟩
  · rw [hsingle 1, confirmMajorRelease_eq_false_iff]
    constructor
    · intro h
      exact ⟨h.2.1, h.2.2⟩
    · intro h
      exact ⟨rfl, h.1, h.2⟩
  · intro code h
    exact ((hsingle code).mp h).1

/-- Witness for C4: package `b` at `0.5.0`, major selected and the
first-major confirmation declined: the session aborts with exit code 1. -/
theorem changesets_c4_witness :
    createChangeset ["b"] [wpkgB] abortAnswers = BuildResult.exit 1 :=
  (changesets_c4_abort ["b"] wpkgB abortAnswers).1.mpr (by decide)

lemma resolveReleases_name_mem {allPackages : List Package} {ans : Answers}
    {packagesToRelease : List String} {r : Release}
    (hr : r ∈ resolveReleases allPackages ans packagesToRelease) :
    r.name ∈ majorSelFiltered ans ∨ r.name ∈ minorSelFiltered ans
      ∨ r.name ∈ packagesToRelease := by
  rw [resolveReleases_eq] at hr
  rcases List.mem_append.mp hr with h | h
  · rcases List.mem_append.mp h with h2 | h2
    · obtain ⟨q, hq, rfl⟩ := List.mem_map.mp h2
      exact Or.inl (majorAssigned_subset allPackages ans hq)
    · cases hL : (leftAfterMajor allPackages ans packagesToRelease).isEmpty with
      | true => rw [hL, if_pos rfl] at h2; exact absurd h2 (List.not_mem_nil r)
      | false =>
        rw [hL] at h2
        simp only [Bool.false_eq_true, if_false] at h2
        obtain ⟨q, hq, rfl⟩ := List.mem_map.mp h2
        exact Or.inr (Or.inl hq)
  · obtain ⟨q, hq, rfl⟩ := List.mem_map.mp h
    have hq2 : q ∈ leftAfterMajor allPackages ans packagesToRelease := by
      cases hL : (leftAfterMajor allPackages ans packagesToRelease).isEmpty with
      | true => rw [leftAfterMinor_eq_nil hL] at hq; exact absurd hq (List.not_mem_nil q)
      | false => exact List.diff_subset _ _ ((leftAfterMinor_eq_diff hL) ▸ hq)
    exact Or.inr (Or.inr (mem_leftAfterMajor.mp hq2).1)

/-- C5: in the multi-package path, a package selected for a major bump
whose first-major-release confirmation comes out declined is never
assigned major: it remains in the working set after the major round, and
it receives minor if it is selected in the minor round, patch
otherwise. -/
theorem changesets_c5_declined_major (allPackages : List Package) (ans : Answers)
    (packagesToRelease : List String) (p : String)
    (hp : p ∈ packagesToRelease)
    (hlabel : p ≠ "all packages")
    (hsel : p ∈ ans.majorSelection)
    (hdecl : confirmedMajor allPackages ans p = false) :
    (∀ r ∈ resolveReleases allPackages ans packagesToRelease, r.name = p → r.type ≠ "major")
    ∧ p ∈ leftAfterMajor allPackages ans packagesToRelease
    ∧ (p ∈ ans.minorSelection →
        ({ name := p, type := "minor" } : Release)
          ∈ resolveReleases allPackages ans packagesToRelease)
    ∧ (p ∉ ans.minorSelection →
        ({ name := p, type := "patch" } : Release)
          ∈ resolveReleases allPackages ans packagesToRelease) := by
  have hnotA : p ∉ majorAssigned allPackages ans := by
    intro hmem
    have := (List.mem_filter.mp hmem).2
    rw [hdecl] at this
    exact absurd this (by decide)
  have hL1 : p ∈ leftAfterMajor allPackages ans packagesToRelease :=
    mem_leftAfterMajor.mpr ⟨hp, hnotA⟩
  have hLfalse : (leftAfterMajor allPackages ans packagesToRelease).isEmpty = false := by
    cases hL : (leftAfterMajor allPackages ans packagesToRelease).isEmpty with
    | false => rfl
    | true =>
      rw [List.isEmpty_iff.mp hL] at hL1
      exact absurd hL1 (List.not_mem_nil p)
  have hrs := resolveReleases_eq allPackages ans packagesToRelease
  rw [hLfalse] at hrs
  simp only [Bool.false_eq_true, if_false] at hrs
  refine ⟨?_, hL1, ?_, ?_⟩
  · intro r hr hname
    rw [hrs] at hr
    rcases List.mem_append.mp hr with h | h
    · rcases List.mem_append.mp h with h2 | h2
      · obtain ⟨q, hq, rfl⟩ := List.mem_map.mp h2
        exact absurd (hname ▸ hq) hnotA
      · obtain ⟨q, hq, rfl⟩ := List.mem_map.mp h2
        simp
    · obtain ⟨q, hq, rfl⟩ := List.mem_map.mp h
      simp
  · intro hm
    rw [hrs]
    refine List.mem_append.mpr (Or.inl (List.mem_append.mpr (Or.inr ?_)))
    exact List.mem_map_of_mem _ (mem_minorSelFiltered.mpr ⟨hm, hlabel⟩)
  · intro hm
    rw [hrs]
    refine List.mem_append.mpr (Or.inr ?_)
    refine List.mem_map_of_mem _ ?_
    rw [leftAfterMinor_eq_diff hLfalse]
    rw [(nodup_leftAfterMajor allPackages ans packagesToRelease).mem_diff_iff]
    exact ⟨hL1, fun hmem => hm (mem_minorSelFiltered.mp hmem).1⟩

/-- Witness for C5: `b` (at `0.5.0`) is selected for major but its
confirmation is declined, and it is selected for minor: it ends up with a
minor release. -/
theorem changesets_c5_witness :
    ({ name := "b", type := "minor" } : Release)
      ∈ resolveReleases [wpkgA, wpkgB, wpkgC] baseAnswers ["a", "b", "c"] :=
  (changesets_c5_declined_major [wpkgA, wpkgB, wpkgC] baseAnswers ["a", "b", "c"] "b"
    (by decide) (by decide) (by decide) (by decide)).2.2.1 (by decide)

end Changesets

namespace Changesets

/-- C3: every changeset in the list returned by `createChangeset` has a
non-empty summary, and every release name in every returned changeset is
the name of some workspace package — given that the caller-provided
changed-package names are drawn from the workspace list and that every
checkbox prompt answers with keys among the options it offered. -/
theorem changesets_c3_invariants (changedPackages : List String) (allPackages : List Package)
    (ans : Answers) (cs : List ChangesetWithConfirmed)
    (hne : allPackages ≠ [])
    (hch : ∀ p ∈ changedPackages, p ∈ workspaceNames allPackages)
    (hsel : ∀ sel ∈ ans.packageSelections, ∀ p ∈ sel,
      p = "changed packages" ∨ p = "unchanged packages" ∨ p ∈ changedPackages
        ∨ p ∈ unchangedPackagesNames changedPackages allPackages)
    (hmaj : ∀ p ∈ ans.majorSelection, p = "all packages" ∨ p ∈ workspaceNames allPackages)
    (hmin : ∀ p ∈ ans.minorSelection, p = "all packages" ∨ p ∈ workspaceNames allPackages)
    (hres : createChangeset changedPackages allPackages ans = BuildResult.ok cs) :
    ∀ c ∈ cs, c.summary ≠ "" ∧ ∀ r ∈ c.releases, r.name ∈ workspaceNames allPackages := by
  have step : ∀ (changesetList : List ChangesetWithConfirmed),
      finalizeChangesets ans changesetList = BuildResult.ok cs →
      (∀ c0 ∈ changesetList, ∀ r ∈ c0.releases, r.name ∈ workspaceNames allPackages) →
      ∀ c ∈ cs, c.summary ≠ "" ∧ ∀ r ∈ c.releases, r.name ∈ workspaceNames allPackages := by
    intro changesetList hfin hok c hc
    obtain ⟨c0, hc0, a, ha⟩ := applySummaries_mem (finalizeChangesets_eq_ok hfin) c hc
    obtain ⟨hs, hrel, hcat⟩ := setSummary_eq_some ha
    refine ⟨hs, ?_⟩
    rw [hrel]
    exact hok c0 hc0
  by_cases hlen : 1 < allPackages.length
  · rw [createChangeset, if_pos hlen] at hres
    cases hfind : getPackagesToRelease changedPackages allPackages ans.packageSelections with
    | none => rw [hfind] at hres; exact absurd hres (by simp)
    | some packagesToRelease =>
      rw [hfind] at hres
      have hres2 : finalizeChangesets ans
          (if (!ans.categorySelection.isEmpty) = true then
            if ans.sameMessage = true then []
            else perReleaseChangesets ans (resolveReleases allPackages ans packagesToRelease)
          else [{ confirmed := false, summary := "", categoryOfChangeList := [],
                  releases := resolveReleases allPackages ans packagesToRelease }])
          = BuildResult.ok cs := hres
      have hPsub : ∀ p ∈ packagesToRelease, p ∈ workspaceNames allPackages := by
        intro p hp
        unfold getPackagesToRelease at hfind
        rw [if_pos hlen] at hfind
        cases hchoose : chooseAtLeastOne ans.packageSelections with
        | none => rw [hchoose] at hfind; exact absurd hfind (by simp)
        | some sel0 =>
          rw [hchoose] at hfind
          have hfind2 : some (sel0.filter
              (fun p => p ≠ "changed packages" ∧ p ≠ "unchanged packages"))
              = some packagesToRelease := hfind
          have hfilter := Option.some.inj hfind2
          rw [← hfilter] at hp
          have hmem := List.mem_filter.mp hp
          have hlbl := hmem.2
          simp only [decide_eq_true_eq] at hlbl
          have hsel0 : sel0 ∈ ans.packageSelections := List.mem_of_find?_eq_some hchoose
          rcases hsel sel0 hsel0 p hmem.1 with h | h | h | h
          · exact absurd h hlbl.1
          · exact absurd h hlbl.2
          · exact hch p h
          · exact (List.filter_sublist _).subset h
      have hnames : ∀ r ∈ resolveReleases allPackages ans packagesToRelease,
          r.name ∈ workspaceNames allPackages := by
        intro r hr
        rcases resolveReleases_name_mem hr with h | h | h
        · obtain ⟨h1, h2⟩ := mem_majorSelFiltered.mp h
          rcases hmaj _ h1 with hh | hh
          · exact absurd hh h2
          · exact hh
        · obtain ⟨h1, h2⟩ := mem_minorSelFiltered.mp h
          rcases hmin _ h1 with hh | hh
          · exact absurd hh h2
          · exact hh
        · exact hPsub _ h
      by_cases hcat : ans.categorySelection.isEmpty = true
      · rw [hcat] at hres2
        simp only [Bool.not_true, Bool.false_eq_true, if_false] at hres2
        refine step _ hres2 ?_
        intro c0 hc0 r hr
        rcases List.mem_cons.mp hc0 with rfl | h
        · exact hnames r hr
        · exact absurd h (List.not_mem_nil c0)
      · rw [Bool.not_eq_true] at hcat
        rw [hcat] at hres2
        simp only [Bool.not_false, if_true] at hres2
        by_cases hsm : ans.sameMessage = true
        · rw [hsm] at hres2
          simp only [if_true] at hres2
          refine step _ hres2 ?_
          intro c0 hc0
          exact absurd hc0 (List.not_mem_nil c0)
        · rw [Bool.not_eq_true] at hsm
          rw [hsm] at hres2
          simp only [Bool.false_eq_true, if_false] at hres2
          refine step _ hres2 ?_
          intro c0 hc0 r hr
          obtain ⟨rel, hrel, rfl⟩ := List.mem_map.mp hc0
          rcases List.mem_cons.mp hr with rfl | h
          · exact hnames r hrel
          · exact absurd h (List.not_mem_nil r)
  · cases allPackages with
    | nil => exact absurd rfl hne
    | cons pkg rest =>
      cases rest with
      | cons q qs => exact absurd (by simp [List.length_cons]) hlen
      | nil =>
        have hred : createChangeset changedPackages [pkg] ans
            = if ans.typeAnswer = "major"
                ∧ confirmMajorRelease pkg.packageJson ans.confirmAnswer = false
              then BuildResult.exit 1
              else finalizeChangesets ans
                [{ confirmed := false, summary := "", categoryOfChangeList := [],
                   releases := [{ name := pkg.packageJson.name, type := ans.typeAnswer }] }] := by
          rw [createChangeset, if_neg (by simp)]
          rfl
        rw [hred] at hres
        by_cases hcond : ans.typeAnswer = "major"
            ∧ confirmMajorRelease pkg.packageJson ans.confirmAnswer = false
        · rw [if_pos hcond] at hres
          exact absurd hres (by simp)
        · rw [if_neg hcond] at hres
          refine step _ hres ?_
          intro c0 hc0 r hr
          rcases List.mem_cons.mp hc0 with rfl | h
          · rcases List.mem_cons.mp hr with rfl | h2
            · simp [workspaceNames]
            · exact absurd h2 (List.not_mem_nil r)
          · exact absurd h (List.not_mem_nil c0)

/-- Witness for C3: the baseline session returns one changeset whose
summary is the non-empty text supplied at the summary prompt and whose
release names all belong to the workspace. -/
theorem changesets_c3_witness :
    ({ confirmed := false, summary := "a summary", categoryOfChangeList := [],
       releases := [{ name := "a", type := "major" }, { name := "b", type := "minor" },
         { name := "c", type := "patch" }] } : ChangesetWithConfirmed).summary ≠ ""
    ∧ "a" ∈ workspaceNames [wpkgA, wpkgB, wpkgC] := by
  have happ := changesets_c3_invariants ["a", "b"] [wpkgA, wpkgB, wpkgC] baseAnswers
    [{ confirmed := false, summary := "a summary", categoryOfChangeList := [],
       releases := [{ name := "a", type := "major" }, { name := "b", type := "minor" },
         { name := "c", type := "patch" }] }]
    (by decide) (by decide) (by decide) (by decide) (by decide) (by decide)
    { confirmed := false, summary := "a summary", categoryOfChangeList := [],
      releases := [{ name := "a", type := "major" }, { name := "b", type := "minor" },
        { name := "c", type := "patch" }] } (by decide)
  exact ⟨happ.1, happ.2 { name := "a", type := "major" } (by decide)⟩

end Changesets

namespace Changesets

/-- C1 (code bug): with the category-of-change workflow engaged and
"reuse the same message" answered yes, the session resolves a non-empty
release list and accumulates a non-empty shared category list, yet
`createChangeset` returns an empty changeset list — the source pushes no
changeset in this branch and the accumulated shared list is never read,
so no changeset with the resolved releases and the shared category list
is ever emitted. -/
theorem changesets_c1_shared_branch_empty :
    createChangeset ["a"] [wpkgA, wpkgB, wpkgC] sharedAnswers = BuildResult.ok []
    ∧ resolveReleases [wpkgA, wpkgB, wpkgC] sharedAnswers ["a", "b", "c"] ≠ []
    ∧ sharedCategoryOfChangeList sharedAnswers
        (resolveReleases [wpkgA, wpkgB, wpkgC] sharedAnswers ["a", "b", "c"]) ≠ [] := by
  decide

/-- Counterexample for C9: in the per-release branch the changesets are
created with an empty summary and `confirmed := true`, but the final
summary loop overwrites both, so the returned changesets have a non-empty
summary and `confirmed = false`. -/
theorem changesets_c9_counterexample :
    createChangeset ["a"] [wpkgA, wpkgB, wpkgC] perReleaseAnswers
      = BuildResult.ok perReleaseResult
    ∧ ¬ (∀ c ∈ perReleaseResult, c.summary = "" ∧ c.confirmed = true) := by
  decide

lemma setSummary_confirmed {changeSet c2 : ChangesetWithConfirmed} {ans : SummaryAnswers}
    (h : setSummary changeSet ans = some c2) :
    c2.confirmed = true ↔ (ans.first.length = 0 ∧ (editorAnswer ans).isSome = true) := by
  unfold setSummary at h
  by_cases h1 : ans.first.length = 0
  · rw [if_pos h1] at h
    cases he : editorAnswer ans with
    | some t =>
      rw [he] at h
      cases h
      simp [h1, he]
    | none =>
      rw [he] at h
      cases hf : ans.retries.find? (fun s => !s.isEmpty) with
      | some s =>
        rw [hf] at h
        cases h
        simp [he]
      | none => rw [hf] at h; exact absurd h (by simp)
  · rw [if_neg h1] at h
    cases h
    simp [h1]

/-- C9 (amended): in the multi-package path with the category-of-change
workflow engaged and "reuse the same message" answered no,
`createChangeset` returns one changeset per resolved release, each
holding exactly that one release and its own individually-prompted
category list; each changeset is created with an empty summary and
`confirmed = true`, but the summary sub-protocol then runs on every
changeset, so each returned changeset carries a non-empty summary and a
`confirmed` flag rewritten by that sub-protocol: true exactly when the
summary came from the external editor (the free-text answer was empty
and the editor yielded non-empty text), false otherwise. -/
theorem changesets_c9_per_release (changedPackages : List String) (allPackages : List Package)
    (ans : Answers) (cs : List ChangesetWithConfirmed) (packagesToRelease : List String)
    (hlen : 1 < allPackages.length)
    (hP : getPackagesToRelease changedPackages allPackages ans.packageSelections
        = some packagesToRelease)
    (hcat : ans.categorySelection ≠ [])
    (hsm : ans.sameMessage = false)
    (hres : createChangeset changedPackages allPackages ans = BuildResult.ok cs) :
    cs.length = (resolveReleases allPackages ans packagesToRelease).length
    ∧ ∀ i (h1 : i < cs.length)
        (h2 : i < (resolveReleases allPackages ans packagesToRelease).length),
        (cs.get ⟨i, h1⟩).releases
            = [(resolveReleases allPackages ans packagesToRelease).get ⟨i, h2⟩]
        ∧ (cs.get ⟨i, h1⟩).categoryOfChangeList
            = ans.categorySelection.map (fun category =>
                ({ description := ans.releaseDescription
                     ((resolveReleases allPackages ans packagesToRelease).get ⟨i, h2⟩) category,
                   category := category } : CategoryOfChange))
        ∧ (cs.get ⟨i, h1⟩).summary ≠ ""
        ∧ ((cs.get ⟨i, h1⟩).confirmed = true ↔
            ((ans.summaries i).first.length = 0
              ∧ (editorAnswer (ans.summaries i)).isSome = true)) := by
  rw [createChangeset, if_pos hlen, hP] at hres
  have hres2 : finalizeChangesets ans
      (if (!ans.categorySelection.isEmpty) = true then
        if ans.sameMessage = true then []
        else perReleaseChangesets ans (resolveReleases allPackages ans packagesToRelease)
      else [{ confirmed := false, summary := "", categoryOfChangeList := [],
              releases := resolveReleases allPackages ans packagesToRelease }])
      = BuildResult.ok cs := hres
  have hcatb : ans.categorySelection.isEmpty = false := by
    cases h : ans.categorySelection.isEmpty with
    | false => rfl
    | true => exact absurd (List.isEmpty_iff.mp h) hcat
  rw [hcatb, hsm] at hres2
  simp only [Bool.not_false, if_true, Bool.false_eq_true, if_false] at hres2
  obtain ⟨hlen2, hidx⟩ := applySummaries_eq_some (finalizeChangesets_eq_ok hres2)
  have hplen : (perReleaseChangesets ans
      (resolveReleases allPackages ans packagesToRelease)).length
      = (resolveReleases allPackages ans packagesToRelease).length := by
    simp [perReleaseChangesets]
  refine ⟨by rw [hlen2, hplen], ?_⟩
  intro i h1 h2
  have hset := hidx i h1 (by rw [hplen]; exact h2)
  rw [Nat.zero_add] at hset
  have hget : (perReleaseChangesets ans
      (resolveReleases allPackages ans packagesToRelease)).get ⟨i, by rw [hplen]; exact h2⟩
      = { confirmed := true, summary := "",
          categoryOfChangeList := ans.categorySelection.map (fun category =>
            ({ description := ans.releaseDescription
                 ((resolveReleases allPackages ans packagesToRelease).get ⟨i, h2⟩) category,
               category := category } : CategoryOfChange)),
          releases := [(resolveReleases allPackages ans packagesToRelease).get ⟨i, h2⟩] } := by
    simp [perReleaseChangesets, List.get_map]
  rw [hget] at hset
  obtain ⟨hs, hrel, hcl⟩ := setSummary_eq_some hset
  exact ⟨by rw [hrel], by rw [hcl], hs, setSummary_confirmed hset⟩

/-- Witness for C9 (amended): the concrete per-release session returns as
many changesets as resolved releases, and the first returned changeset's
confirmed flag is false because its summary came from the free-text
prompt, not the editor. -/
theorem changesets_c9_witness :
    perReleaseResult.length
      = (resolveReleases [wpkgA, wpkgB, wpkgC] perReleaseAnswers ["a", "b", "c"]).length
    ∧ ¬ (perReleaseResult.get ⟨0, by decide⟩).confirmed = true := by
  have h := changesets_c9_per_release ["a"] [wpkgA, wpkgB, wpkgC] perReleaseAnswers
    perReleaseResult ["a", "b", "c"] (by decide) (by decide) (by decide) (by decide) (by decide)
  refine ⟨h.1, fun hc => ?_⟩
  have h0 := ((h.2 0 (by decide) (by decide)).2.2.2.mp hc).1
  exact absurd h0 (by decide)

/-- C10: every `CategoryOfChange` record built by `createChangeset`
carries no `type` field (modelled as `none`); consequently the
serializers' per-severity category filter selects no entries, and the
rendered category-line section of every severity-grouped block is empty
(a bare newline in the current serializer, the empty string in the legacy
one). -/
theorem changesets_c10_no_type_field (changedPackages : List String)
    (allPackages : List Package) (ans : Answers) (cs : List ChangesetWithConfirmed)
    (hres : createChangeset changedPackages allPackages ans = BuildResult.ok cs) :
    (∀ c ∈ cs, ∀ k ∈ c.categoryOfChangeList, k.type = none)
    ∧ ∀ (l : List CategoryOfChange), (∀ k ∈ l, k.type = none) →
        ∀ bt : String, bt ≠ "" →
          l.filter (fun chk => chk.type = some bt) = []
          ∧ Write.getChangeTypesSection l (some bt) = "\n"
          ∧ WriteLegacy.getChangeTypesSection l bt = "" := by
  constructor
  · have step : ∀ (changesetList : List ChangesetWithConfirmed),
        finalizeChangesets ans changesetList = BuildResult.ok cs →
        (∀ c0 ∈ changesetList, ∀ k ∈ c0.categoryOfChangeList, k.type = none) →
        ∀ c ∈ cs, ∀ k ∈ c.categoryOfChangeList, k.type = none := by
      intro changesetList hfin hok c hc
      obtain ⟨c0, hc0, a, ha⟩ := applySummaries_mem (finalizeChangesets_eq_ok hfin) c hc
      obtain ⟨hs, hrel, hcl⟩ := setSummary_eq_some ha
      rw [hcl]
      exact hok c0 hc0
    by_cases hlen : 1 < allPackages.length
    · rw [createChangeset, if_pos hlen] at hres
      cases hfind : getPackagesToRelease changedPackages allPackages ans.packageSelections with
      | none => rw [hfind] at hres; exact absurd hres (by simp)
      | some packagesToRelease =>
        rw [hfind] at hres
        have hres2 : finalizeChangesets ans
            (if (!ans.categorySelection.isEmpty) = true then
              if ans.sameMessage = true then []
              else perReleaseChangesets ans (resolveReleases allPackages ans packagesToRelease)
            else [{ confirmed := false, summary := "", categoryOfChangeList := [],
                    releases := resolveReleases allPackages ans packagesToRelease }])
            = BuildResult.ok cs := hres
        by_cases hcat : ans.categorySelection.isEmpty = true
        · rw [hcat] at hres2
          simp only [Bool.not_true, Bool.false_eq_true, if_false] at hres2
          refine step _ hres2 ?_
          intro c0 hc0 k hk
          rcases List.mem_cons.mp hc0 with rfl | h
          · exact absurd hk (List.not_mem_nil k)
          · exact absurd h (List.not_mem_nil c0)
        · rw [Bool.not_eq_true] at hcat
          rw [hcat] at hres2
          simp only [Bool.not_false, if_true] at hres2
          by_cases hsm : ans.sameMessage = true
          · rw [hsm] at hres2
            simp only [if_true] at hres2
            refine step _ hres2 ?_
            intro c0 hc0
            exact absurd hc0 (List.not_mem_nil c0)
          · rw [Bool.not_eq_true] at hsm
            rw [hsm] at hres2
            simp only [Bool.false_eq_true, if_false] at hres2
            refine step _ hres2 ?_
            intro c0 hc0 k hk
            obtain ⟨rel, hrel, rfl⟩ := List.mem_map.mp hc0
            obtain ⟨cat, hcat2, rfl⟩ := List.mem_map.mp hk
            rfl
    · cases allPackages with
      | nil =>
        have hred : createChangeset changedPackages [] ans
            = if ans.typeAnswer = "major"
                ∧ confirmMajorRelease defaultPackage.packageJson ans.confirmAnswer = false
              then BuildResult.exit 1
              else finalizeChangesets ans
                [{ confirmed := false, summary := "", categoryOfChangeList := [],
                   releases := [{ name := defaultPackage.packageJson.name,
                                  type := ans.typeAnswer }] }] := by
          rw [createChangeset, if_neg (by simp)]
          rfl
        rw [hred] at hres
        by_cases hcond : ans.typeAnswer = "major"
            ∧ confirmMajorRelease defaultPackage.packageJson ans.confirmAnswer = false
        · rw [if_pos hcond] at hres
          exact absurd hres (by simp)
        · rw [if_neg hcond] at hres
          refine step _ hres ?_
          intro c0 hc0 k hk
          rcases List.mem_cons.mp hc0 with rfl | h
          · exact absurd hk (List.not_mem_nil k)
          · exact absurd h (List.not_mem_nil c0)
      | cons pkg rest =>
        have hred : createChangeset changedPackages (pkg :: rest) ans
            = if ans.typeAnswer = "major"
                ∧ confirmMajorRelease pkg.packageJson ans.confirmAnswer = false
              then BuildResult.exit 1
              else finalizeChangesets ans
                [{ confirmed := false, summary := "", categoryOfChangeList := [],
                   releases := [{ name := pkg.packageJson.name, type := ans.typeAnswer }] }] := by
          rw [createChangeset, if_neg hlen]
          rfl
        rw [hred] at hres
        by_cases hcond : ans.typeAnswer = "major"
            ∧ confirmMajorRelease pkg.packageJson ans.confirmAnswer = false
        · rw [if_pos hcond] at hres
          exact absurd hres (by simp)
        · rw [if_neg hcond] at hres
          refine step _ hres ?_
          intro c0 hc0 k hk
          rcases List.mem_cons.mp hc0 with rfl | h
          · exact absurd hk (List.not_mem_nil k)
          · exact absurd h (List.not_mem_nil c0)
  · intro l hl bt hbt
    have hfil : l.filter (fun chk => chk.type = some bt) = [] := by
      rw [List.filter_eq_nil_iff]
      intro k hk
      rw [hl k hk]
      simp
    refine ⟨hfil, ?_, ?_⟩
    · have hred : Write.getChangeTypesSection l (some bt)
          = joinWith "\n" ((if bt = "" then l
              else l.filter (fun chk => chk.type = some bt)).map
            (fun chk => "- [ " ++ getKindTitle chk.category ++ " ] " ++ chk.description))
            ++ "\n" := rfl
      rw [hred, if_neg hbt, hfil]
      rfl
    · unfold WriteLegacy.getChangeTypesSection
      rw [hfil]
      rfl

/-- Witness for C10: the concrete per-release session yields changesets
with `type`-less category records, and a serializer filter on any real
bump type renders the empty section. -/
theorem changesets_c10_witness :
    Write.getChangeTypesSection
      [{ description := "release description", category := "Added (new things)" }]
      (some "major") = "\n" :=
  ((changesets_c10_no_type_field ["a"] [wpkgA, wpkgB, wpkgC] perReleaseAnswers
    perReleaseResult (by decide)).2
    [{ description := "release description", category := "Added (new things)" }]
    (by decide) "major" (by decide)).2.1

end Changesets

namespace Changesets

/-- C8: if the text-formatting step raises during `writeChangeset`, the
error is propagated to the caller and the operation fails atomically —
no file is added to the file system. -/
theorem changesets_c8_format_error (format : String → Except String String)
    (changesetID : String) (changeset : Changeset) (fsys : List (String × String))
    (e : String) (h : format (Write.changesetContents changeset) = Except.error e) :
    Write.writeChangeset format changesetID changeset fsys = Except.error e
    ∧ ∀ result, Write.writeChangeset format changesetID changeset fsys ≠ Except.ok result := by
  have hred : Write.writeChangeset format changesetID changeset fsys
      = match format (Write.changesetContents changeset) with
        | Except.error e2 => Except.error e2
        | Except.ok formatted =>
          Except.ok (((".changeset/" ++ changesetID ++ ".md"), formatted) :: fsys, changesetID) :=
    rfl
  rw [hred, h]
  exact ⟨rfl, by simp⟩

/-- Witness for C8: a formatter that always raises makes `writeChangeset`
return that error unchanged. -/
theorem changesets_c8_witness :
    Write.writeChangeset (fun _ => Except.error "format failure") "unique-id"
      { summary := "s", releases := [{ name := "a", type := "patch" }],
        categoryOfChangeList := [] } [] = Except.error "format failure" :=
  (changesets_c8_format_error (fun _ => Except.error "format failure") "unique-id"
    { summary := "s", releases := [{ name := "a", type := "patch" }],
      categoryOfChangeList := [] } [] "format failure" rfl).1

lemma filter_isEmpty_false_iff {α : Type} (l : List α) (p : α → Bool) :
    (l.filter p).isEmpty = false ↔ ∃ x ∈ l, p x = true := by
  constructor
  · intro h
    cases hF : l.filter p with
    | nil => rw [hF] at h; simp at h
    | cons a as =>
      have hmem : a ∈ l.filter p := by rw [hF]; exact List.mem_cons_self a as
      have := List.mem_filter.mp hmem
      exact ⟨a, this.1, this.2⟩
  · rintro ⟨x, hx, hp⟩
    cases hE : (l.filter p).isEmpty with
    | false => rfl
    | true =>
      have hnil := List.isEmpty_iff.mp hE
      have hmem := List.mem_filter.mpr ⟨hx, hp⟩
      rw [hnil] at hmem
      exact absurd hmem (List.not_mem_nil x)

/-- C6: in the severity-grouped rendering, a header block is emitted for
a severity exactly when at least one release is grouped under it, the
emitted blocks appear in the fixed order major, minor, patch, a "none"
block is never emitted, and when every release type is one of
major/minor/patch a block for `t` appears exactly when some release has
type `t` (a release with any other type is placed in the major
bucket). -/
theorem changesets_c6_grouped_blocks (releases : List Release) :
    "none" ∉ WriteLegacy.emittedSeverities releases
    ∧ (WriteLegacy.emittedSeverities releases).Sublist ["major", "minor", "patch"]
    ∧ ("major" ∈ WriteLegacy.emittedSeverities releases
        ↔ ∃ r ∈ releases, r.type ≠ "minor" ∧ r.type ≠ "patch")
    ∧ ("minor" ∈ WriteLegacy.emittedSeverities releases ↔ ∃ r ∈ releases, r.type = "minor")
    ∧ ("patch" ∈ WriteLegacy.emittedSeverities releases ↔ ∃ r ∈ releases, r.type = "patch")
    ∧ ((∀ r ∈ releases, r.type ∈ (["major", "minor", "patch"] : List String)) →
        ∀ t, t ∈ WriteLegacy.emittedSeverities releases ↔ ∃ r ∈ releases, r.type = t) := by
  have hem : WriteLegacy.emittedSeverities releases
      = (if (releases.filter (fun rel => rel.type ≠ "minor" ∧ rel.type ≠ "patch")).isEmpty
          then [] else ["major"])
        ++ (if (releases.filter (fun rel => rel.type = "minor")).isEmpty then [] else ["minor"])
        ++ (if (releases.filter (fun rel => rel.type = "patch")).isEmpty then [] else ["patch"]) := by
    unfold WriteLegacy.emittedSeverities WriteLegacy.groupedBlocks WriteLegacy.groupByBumpType
    cases h1 : (releases.filter (fun rel => rel.type ≠ "minor" ∧ rel.type ≠ "patch")).isEmpty
    <;> cases h2 : (releases.filter (fun rel => rel.type = "minor")).isEmpty
    <;> cases h3 : (releases.filter (fun rel => rel.type = "patch")).isEmpty
    <;> simp only [List.filter_cons, List.filter_nil, h1, h2, h3]
    <;> simp
  have hmem : ∀ t : String, t ∈ WriteLegacy.emittedSeverities releases ↔
      ((t = "major"
          ∧ (releases.filter (fun rel => rel.type ≠ "minor" ∧ rel.type ≠ "patch")).isEmpty = false)
        ∨ (t = "minor" ∧ (releases.filter (fun rel => rel.type = "minor")).isEmpty = false)
        ∨ (t = "patch" ∧ (releases.filter (fun rel => rel.type = "patch")).isEmpty = false)) := by
    intro t
    rw [hem]
    cases h1 : (releases.filter (fun rel => rel.type ≠ "minor" ∧ rel.type ≠ "patch")).isEmpty
    <;> cases h2 : (releases.filter (fun rel => rel.type = "minor")).isEmpty
    <;> cases h3 : (releases.filter (fun rel => rel.type = "patch")).isEmpty
    <;> simp only [h1, h2, h3]
    <;> simp
  have hcmaj : "major" ∈ WriteLegacy.emittedSeverities releases
      ↔ ∃ r ∈ releases, r.type ≠ "minor" ∧ r.type ≠ "patch" := by
    rw [hmem "major"]
    simp [filter_isEmpty_false_iff]
  have hcmin : "minor" ∈ WriteLegacy.emittedSeverities releases
      ↔ ∃ r ∈ releases, r.type = "minor" := by
    rw [hmem "minor"]
    simp [filter_isEmpty_false_iff]
  have hcpat : "patch" ∈ WriteLegacy.emittedSeverities releases
      ↔ ∃ r ∈ releases, r.type = "patch" := by
    rw [hmem "patch"]
    simp [filter_isEmpty_false_iff]
  have hsub : (WriteLegacy.emittedSeverities releases).Sublist ["major", "minor", "patch"] := by
    rw [hem]
    cases h1 : (releases.filter (fun rel => rel.type ≠ "minor" ∧ rel.type ≠ "patch")).isEmpty
    <;> cases h2 : (releases.filter (fun rel => rel.type = "minor")).isEmpty
    <;> cases h3 : (releases.filter (fun rel => rel.type = "patch")).isEmpty
    <;> decide
  refine ⟨?_, hsub, hcmaj, hcmin, hcpat, ?_⟩
  · intro hmm
    rcases (hmem "none").mp hmm with ⟨h, _⟩ | ⟨h, _⟩ | ⟨h, _⟩ <;> exact absurd h (by decide)
  · intro hwell t
    constructor
    · intro ht
      have htm : t ∈ (["major", "minor", "patch"] : List String) := hsub.subset ht
      simp only [List.mem_cons, List.not_mem_nil, or_false] at htm
      rcases htm with rfl | rfl | rfl
      · obtain ⟨r, hr, hn1, hn2⟩ := hcmaj.mp ht
        refine ⟨r, hr, ?_⟩
        have := hwell r hr
        simp only [List.mem_cons, List.not_mem_nil, or_false] at this
        rcases this with h | h | h
        · exact h
        · exact absurd h hn1
        · exact absurd h hn2
      · exact hcmin.mp ht
      · exact hcpat.mp ht
    · rintro ⟨r, hr, rfl⟩
      have := hwell r hr
      simp only [List.mem_cons, List.not_mem_nil, or_false] at this
      rcases this with h | h | h
      · rw [h]
        exact hcmaj.mpr ⟨r, hr, by rw [h]; exact ⟨by decide, by decide⟩⟩
      · rw [h]
        exact hcmin.mpr ⟨r, hr, h⟩
      · rw [h]
        exact hcpat.mpr ⟨r, hr, h⟩

/-- Witness for C6: a single minor release emits exactly the minor block;
the well-typed instance of the exactness conjunct holds at it. -/
theorem changesets_c6_witness :
    "minor" ∈ WriteLegacy.emittedSeverities [{ name := "a", type := "minor" }] :=
  ((changesets_c6_grouped_blocks [{ name := "a", type := "minor" }]).2.2.2.2.2
    (by decide) "minor").mpr ⟨{ name := "a", type := "minor" }, by decide, rfl⟩

end Changesets

namespace Changesets

/-! Lemmas for the header round-trip (C7). -/

lemma splitLines_append (l : List Char) (rest : List Char) (hl : '\n' ∉ l) :
    splitLines (l ++ '\n' :: rest) = l :: splitLines rest := by
  induction l with
  | nil => simp [splitLines]
  | cons c cs ih =>
    have hc : c ≠ '\n' := fun h => hl (h ▸ List.mem_cons_self c cs)
    have hcs : '\n' ∉ cs := fun h => hl (List.mem_cons_of_mem c h)
    rw [List.cons_append, splitLines, if_neg hc, ih hcs]

lemma takeWhile_all_append (p : Char → Bool) :
    ∀ (l l2 : List Char), (∀ c ∈ l, p c = true) →
      (l ++ l2).takeWhile p = l ++ l2.takeWhile p := by
  intro l
  induction l with
  | nil => intro l2 h; simp
  | cons c cs ih =>
    intro l2 h
    have hc := h c (List.mem_cons_self c cs)
    rw [List.cons_append]
    simp only [List.takeWhile_cons, hc, if_true]
    rw [ih l2 (fun d hd => h d (List.mem_cons_of_mem c hd))]
    rfl

lemma dropWhile_all_append (p : Char → Bool) :
    ∀ (l l2 : List Char), (∀ c ∈ l, p c = true) →
      (l ++ l2).dropWhile p = l2.dropWhile p := by
  intro l
  induction l with
  | nil => intro l2 h; simp
  | cons c cs ih =>
    intro l2 h
    have hc := h c (List.mem_cons_self c cs)
    rw [List.cons_append]
    simp only [List.dropWhile_cons, hc, if_true]
    exact ih l2 (fun d hd => h d (List.mem_cons_of_mem c hd))

lemma parseHeaderLine_roundtrip (name ty : String) (hq : '\"' ∉ name.data) :
    parseHeaderLine ('\"' :: (name.data ++ '\"' :: ':' :: ' ' :: ty.data))
      = some (name, ty) := by
  have hall : ∀ c ∈ name.data, (decide (c ≠ '\"')) = true := by
    intro c hc
    simp only [decide_eq_true_eq]
    intro he
    exact hq (he ▸ hc)
  rw [parseHeaderLine]
  rw [dropWhile_all_append _ _ _ hall, takeWhile_all_append _ _ _ hall]
  simp

lemma data_joinWith_newline (ls : List String) (rest : List Char) (hne : ls ≠ [])
    (hnl : ∀ s ∈ ls, '\n' ∉ s.data) :
    splitLines ((joinWith "\n" ls).data ++ '\n' :: rest)
      = ls.map String.data ++ splitLines rest := by
  induction ls with
  | nil => exact absurd rfl hne
  | cons x xs ih =>
    cases xs with
    | nil =>
      rw [joinWith]
      rw [splitLines_append _ _ (hnl x (List.mem_cons_self x []))]
      rfl
    | cons y ys =>
      have hdata : (joinWith "\n" (x :: y :: ys)).data
          = x.data ++ '\n' :: (joinWith "\n" (y :: ys)).data := by
        rw [joinWith]
        simp [String.data_append]
      rw [hdata]
      have hassoc : (x.data ++ '\n' :: (joinWith "\n" (y :: ys)).data) ++ '\n' :: rest
          = x.data ++ '\n' :: ((joinWith "\n" (y :: ys)).data ++ '\n' :: rest) := by
        simp [List.append_assoc]
      rw [hassoc]
      rw [splitLines_append _ _ (hnl x (List.mem_cons_self x (y :: ys)))]
      rw [ih (by simp) (fun s hs => hnl s (List.mem_cons_of_mem x hs))]
      rfl

lemma parseHeaderLines_renderLines (releases : List Release) (tail : List (List Char))
    (hname : ∀ r ∈ releases, '\"' ∉ r.name.data) :
    parseHeaderLines
      ((releases.map (fun r => ("\"" ++ r.name ++ "\": " ++ r.type).data))
        ++ ['-', '-', '-'] :: tail)
      = some (releases.map (fun r => (r.name, r.type))) := by
  induction releases with
  | nil => simp [parseHeaderLines]
  | cons r rs ih =>
    simp only [List.map_cons, List.cons_append]
    have hline : ("\"" ++ r.name ++ "\": " ++ r.type).data
        = '\"' :: (r.name.data ++ '\"' :: ':' :: ' ' :: r.type.data) := by
      simp [String.data_append]
    rw [parseHeaderLines, hline]
    rw [if_neg (by simp)]
    rw [parseHeaderLine_roundtrip r.name r.type (hname r (List.mem_cons_self r rs))]
    rw [ih (fun q hq => hname q (List.mem_cons_of_mem r hq))]

lemma parseChangesetHeader_section (releases : List Release) (tailStr : String)
    (hne : releases ≠ [])
    (hname : ∀ r ∈ releases, '\"' ∉ r.name.data ∧ '\n' ∉ r.name.data)
    (htype : ∀ r ∈ releases, '\n' ∉ r.type.data) :
    parseChangesetHeader (Write.getReleasesSection releases ++ tailStr)
      = some (releases.map (fun r => (r.name, r.type))) := by
  have hlinenl : ∀ s ∈ releases.map (fun r => "\"" ++ r.name ++ "\": " ++ r.type),
      '\n' ∉ s.data := by
    intro s hs
    obtain ⟨r, hr, rfl⟩ := List.mem_map.mp hs
    intro hmem
    simp only [String.data_append] at hmem
    simp at hmem
    rcases hmem with h | h
    · exact (hname r hr).2 h
    · exact htype r hr h
  have hdoc : (Write.getReleasesSection releases ++ tailStr).data
      = ['-', '-', '-']
        ++ '\n' :: ((joinWith "\n"
              (releases.map (fun r => "\"" ++ r.name ++ "\": " ++ r.type))).data
          ++ '\n' :: (['-', '-', '-'] ++ '\n' :: tailStr.data)) := by
    unfold Write.getReleasesSection
    simp [String.data_append, List.append_assoc]
  unfold parseChangesetHeader
  rw [hdoc]
  rw [splitLines_append ['-', '-', '-'] _ (by decide)]
  rw [data_joinWith_newline _ _ (by simp [hne]) hlinenl]
  rw [splitLines_append ['-', '-', '-'] _ (by decide)]
  simp only [if_pos rfl]
  have hmm := parseHeaderLines_renderLines releases (splitLines tailStr.data)
    (fun r hr => (hname r hr).1)
  rw [List.map_map]
  exact hmm

/-- C7: parsing the header block of the document rendered by
`writeChangeset` — splitting on the `---` delimiters and reading each
quoted `"name": type` line — recovers exactly the (package name,
severity) pairs of the changeset's releases, including package names
needing quoting such as `@scope/name` (any name without a quote or
newline character). -/
theorem changesets_c7_roundtrip (changeset : Changeset)
    (hne : changeset.releases ≠ [])
    (hname : ∀ r ∈ changeset.releases, '\"' ∉ r.name.data ∧ '\n' ∉ r.name.data)
    (htype : ∀ r ∈ changeset.releases, r.type ∈ (["major", "minor", "patch"] : List String)) :
    parseChangesetHeader (Write.changesetContents changeset)
      = some (changeset.releases.map (fun r => (r.name, r.type))) := by
  have htype2 : ∀ r ∈ changeset.releases, '\n' ∉ r.type.data := by
    intro r hr
    have := htype r hr
    simp only [List.mem_cons, List.not_mem_nil, or_false] at this
    rcases this with h | h | h <;> rw [h] <;> decide
  unfold Write.changesetContents Write.getReleasesAndChangeTypes
  simp only [Bool.false_and, Bool.false_eq_true, if_false]
  by_cases hcat : changeset.categoryOfChangeList.isEmpty = true
  · rw [hcat]
    simp only [Bool.not_true, Bool.false_eq_true, if_false]
    rw [String.append_assoc, String.append_assoc]
    exact parseChangesetHeader_section changeset.releases _ hne hname htype2
  · rw [Bool.not_eq_true] at hcat
    rw [hcat]
    simp only [Bool.not_false, if_true]
    rw [String.append_assoc, String.append_assoc, String.append_assoc,
      String.append_assoc]
    exact parseChangesetHeader_section changeset.releases _ hne hname htype2

/-- Witness for C7: a two-release changeset including the scoped name
`@scope/name` round-trips through the rendered header. -/
theorem changesets_c7_witness :
    parseChangesetHeader (Write.changesetContents
      { summary := "hello", releases := [{ name := "@scope/name", type := "minor" },
          { name := "b", type := "major" }], categoryOfChangeList := [] })
      = some [("@scope/name", "minor"), ("b", "major")] :=
  changesets_c7_roundtrip
    { summary := "hello", releases := [{ name := "@scope/name", type := "minor" },
        { name := "b", type := "major" }], categoryOfChangeList := [] }
    (by decide) (by decide) (by decide)

end Changesets
